import Mathlib

/-!
# Verification of `deltaconv/crawler.py`

A shallow embedding of the date-windowed fetch logic of
`src/deltaconv/crawler.py` (the `BinanceConnection.trades` windowing loop,
the `fetch_trades` argument handling, and the `deposits` / `withdrawals`
paths), together with theorems settling the specification's claims.

## Modelling conventions

* A naive `datetime.datetime` value (no timezone) is modelled as a natural
  number of seconds since 0001-01-01 00:00:00 of the proleptic Gregorian
  calendar (the minimum of Python's `datetime` range, which is a
  midnight).  Every midnight is then a multiple of 86400, so
  `t.replace(second=0, minute=0, hour=0, microsecond=0)` becomes
  `t / 86400 * 86400`.  We work at second granularity: datetimes with a
  nonzero `microsecond` field are outside the model (no claim involves
  them, and the `microsecond=0` part of the `replace` call is subsumed by
  the rounding).
* Model of `datetime.timedelta(days=28)` is the constant
  `days28 = 28 * 86400` seconds; adding a timedelta to a naive datetime is
  plain addition of second counts.
* The network is an oracle: `BinanceConnection._get_trades` is modelled by
  a function `f : Nat → Nat → List α` from a `(start, end)` window to the
  record list the remote source returns for it (records are opaque, hence
  the type parameter `α`); the `pages` component of the Python return
  value is dropped because `trades` discards it.  For the
  error-propagation claim the oracle instead returns `Except ε (List α)`,
  an `.error` value standing for a raised exception.
* The modelled functions additionally return the list of fetch calls they
  issued, in order, as ghost instrumentation: the Python code issues those
  calls as side effects.
* The `while` loop of `BinanceConnection.trades` advances
  `start_interval` by 28 days per iteration, so it terminates; we realize
  the recursion structurally on the fuel `end - start_interval`, which
  strictly bounds the number of iterations, and prove the defining
  equation `tradesLoop_eq`, which is exactly the source loop: compare it
  with crawler.py lines 267-287.
-/

namespace DeltaConv

/-- Seconds per calendar day. -/
def secondsPerDay : Nat := 86400

/-- Model of `datetime.timedelta(days=28)` in seconds (crawler.py lines
270 and 280: "use 28 days to be save for all month"). -/
def days28 : Nat := 28 * secondsPerDay

/-- Model of `start.replace(second=0, minute=0, hour=0, microsecond=0)`
(crawler.py line 267): zero the time-of-day fields, i.e. round `t` down
to the start of the calendar day containing it. -/
def dayFloor (t : Nat) : Nat := t / secondsPerDay * secondsPerDay

/-- Fuelled realization of the `while` loop of `BinanceConnection.trades`
(crawler.py lines 272-287) together with the mandatory trailing fetch of
line 283, starting from a current `start_interval` value `s` (so that the
current `end_interval` is `s + days28`) and the overall `end` value `e`.
The fuel only drives termination: `tradesLoop_eq` below proves the
fuel-free defining equation of the loop.

Returns the list of `(start, end)` windows passed to `_get_trades`, in
issue order, paired with the accumulated `trades` result list. -/
def tradesGo (f : Nat → Nat → List α) : Nat → Nat → Nat → List (Nat × Nat) × List α
  | 0, s, e => ([(s, e)], f s e)
  | n + 1, s, e =>
    if s + days28 < e then
      ((s, s + days28) :: (tradesGo f n (s + days28) e).1,
        f s (s + days28) ++ (tradesGo f n (s + days28) e).2)
    else ([(s, e)], f s e)

/-- The windowing loop of `BinanceConnection.trades` (crawler.py lines
272-287), run from `start_interval = s` and overall `end = e`: the fuel
`e - s` strictly bounds the number of iterations because every iteration
adds `days28 > 0` to `s` while the loop only continues when
`s + days28 < e`. -/
def tradesLoop (f : Nat → Nat → List α) (s e : Nat) : List (Nat × Nat) × List α :=
  tradesGo f (e - s) s e

/-- Model of `BinanceConnection.trades(start, end)` (crawler.py lines
248-287): normalize `start` to the beginning of its calendar day (line
267), then run the 28-day windowing loop.  Returns the issued fetch
windows together with the returned `trades` list. -/
def trades (f : Nat → Nat → List α) (start e : Nat) : List (Nat × Nat) × List α :=
  tradesLoop f (dayFloor start) e

/-- The sequence of `(start, end)` windows that
`BinanceConnection.trades(start, end)` passes to `_get_trades`; by
`trades_fst` below it does not depend on what the remote source answers. -/
def tradesWindows (start e : Nat) : List (Nat × Nat) :=
  (trades (fun _ _ => ([] : List Unit)) start e).1

/-- Fuelled realization of the same loop when `_get_trades` may raise: the
oracle returns `Except ε (List α)`, and a raised exception aborts the loop
at once (nothing in crawler.py catches it), so the issued-call list stops
at the raising window and no result list is produced. -/
def tradesGoE (f : Nat → Nat → Except ε (List α)) :
    Nat → Nat → Nat → List (Nat × Nat) × Except ε (List α)
  | 0, s, e => ([(s, e)], f s e)
  | n + 1, s, e =>
    if s + days28 < e then
      match f s (s + days28) with
      | .error err => ([(s, s + days28)], .error err)
      | .ok r =>
        ((s, s + days28) :: (tradesGoE f n (s + days28) e).1,
          (tradesGoE f n (s + days28) e).2.map (fun rs => r ++ rs))
    else ([(s, e)], f s e)

/-- The windowing loop with a raising oracle, from `start_interval = s`. -/
def tradesLoopE (f : Nat → Nat → Except ε (List α)) (s e : Nat) :
    List (Nat × Nat) × Except ε (List α) :=
  tradesGoE f (e - s) s e

/-- Model of `BinanceConnection.trades(start, end)` with a raising oracle:
issued fetch calls paired with either the accumulated result list or the
propagated exception. -/
def tradesE (f : Nat → Nat → Except ε (List α)) (start e : Nat) :
    List (Nat × Nat) × Except ε (List α) :=
  tradesLoopE f (dayFloor start) e

-- ## Calendar datetimes (for `fetch_trades` and the worked example)

/-- A naive `datetime.datetime` value at second granularity (the
`microsecond` field, always zero in the modelled scenarios, is omitted). -/
structure DateTime where
  year : Nat
  month : Nat
  day : Nat
  hour : Nat
  minute : Nat
  second : Nat
deriving DecidableEq, Repr

/-- Gregorian leap-year rule, as implemented by Python's
`calendar.isleap` / used by `datetime`. -/
def isLeap (y : Nat) : Bool :=
  y % 4 = 0 && (y % 100 != 0 || y % 400 = 0)

/-- Number of days of month `m` (1-12) in year `y`, per the proleptic
Gregorian calendar used by `datetime`. -/
def daysInMonth (y m : Nat) : Nat :=
  if m = 2 then (if isLeap y then 29 else 28)
  else if m = 4 ∨ m = 6 ∨ m = 9 ∨ m = 11 then 30
  else 31

/-- Days in year `y` strictly before month `m`. -/
def daysBeforeMonth (y m : Nat) : Nat :=
  ((List.range (m - 1)).map (fun k => daysInMonth y (k + 1))).sum

/-- Days strictly before January 1 of year `y`, counted from
0001-01-01 (the formula behind `datetime.toordinal`). -/
def daysBeforeYear (y : Nat) : Nat :=
  (y - 1) * 365 + (y - 1) / 4 - (y - 1) / 100 + (y - 1) / 400

/-- Seconds since 0001-01-01 00:00:00 — the `Nat` timestamp of a
`DateTime`, mirroring `datetime.toordinal` plus the time of day. -/
def toSec (d : DateTime) : Nat :=
  (daysBeforeYear d.year + daysBeforeMonth d.year d.month + (d.day - 1)) * secondsPerDay
    + d.hour * 3600 + d.minute * 60 + d.second

-- ## Model of `datetime.datetime.strptime(_, '%Y-%m-%d %H:%M:%S')`

/-- Longest digit prefix of a character list, and the rest. -/
def takeDigits : List Char → List Char × List Char
  | [] => ([], [])
  | c :: cs =>
    if c.isDigit then
      ((takeDigits cs).1.cons c, (takeDigits cs).2)
    else ([], c :: cs)

/-- Numeric value of a digit string (most significant first). -/
def digitsToNat (ds : List Char) : Nat :=
  ds.foldl (fun a c => a * 10 + (c.toNat - 48)) 0

/-- ASCII whitespace, the characters CPython's `re` module's `\s` class
matches on ASCII input (the blank in a `strptime` format string matches
`\s+`). -/
def isPySpace (c : Char) : Bool :=
  c = ' ' || c = '\t' || c = '\n' || c = '\r' || c = '\x0b' || c = '\x0c'

/-- Longest whitespace prefix of a character list, and the rest. -/
def takeSpaces : List Char → List Char × List Char
  | [] => ([], [])
  | c :: cs =>
    if isPySpace c then
      ((takeSpaces cs).1.cons c, (takeSpaces cs).2)
    else ([], c :: cs)

/-- Model of `datetime.datetime.strptime(str, '%Y-%m-%d %H:%M:%S')`
(crawler.py lines 51 and 57): `none` when CPython raises `ValueError`,
`some` of the parsed datetime otherwise.  Per CPython's `_strptime`:
`%Y` matches exactly four digits; `%m`, `%d`, `%H`, `%M` and `%S` match
one or two digits whose value fits the field (month 1-12, day 1-31,
hour 0-23, minute 0-59, second 0-61 — the regular expressions reject
`25` for `%H` or `32` for `%d` outright because after the single-digit
fallback the literal separator fails to match the leftover digit); the
blank in the format matches one or more whitespace characters; the whole
string must be consumed.  The `datetime` constructor then additionally
requires year ≥ 1, a day that exists in the given month and year, and
(for `datetime.strptime`, which has no leap seconds) second ≤ 59. -/
def strptime (str : String) : Option DateTime :=
  let p1 := takeDigits str.toList
  let y := digitsToNat p1.1
  match p1.2 with
  | '-' :: r2 =>
    let p3 := takeDigits r2
    let m := digitsToNat p3.1
    match p3.2 with
    | '-' :: r4 =>
      let p5 := takeDigits r4
      let d := digitsToNat p5.1
      let p6 := takeSpaces p5.2
      let p7 := takeDigits p6.2
      let hh := digitsToNat p7.1
      match p7.2 with
      | ':' :: r8 =>
        let p9 := takeDigits r8
        let mi := digitsToNat p9.1
        match p9.2 with
        | ':' :: r10 =>
          let p11 := takeDigits r10
          let sec := digitsToNat p11.1
          if p1.1.length = 4
              ∧ (p3.1.length = 1 ∨ p3.1.length = 2) ∧ 1 ≤ m ∧ m ≤ 12
              ∧ (p5.1.length = 1 ∨ p5.1.length = 2) ∧ 1 ≤ d ∧ d ≤ 31
              ∧ 1 ≤ p6.1.length
              ∧ (p7.1.length = 1 ∨ p7.1.length = 2) ∧ hh ≤ 23
              ∧ (p9.1.length = 1 ∨ p9.1.length = 2) ∧ mi ≤ 59
              ∧ (p11.1.length = 1 ∨ p11.1.length = 2) ∧ sec ≤ 61
              ∧ p11.2 = [] then
            if 1 ≤ y ∧ d ≤ daysInMonth y m ∧ sec ≤ 59 then
              some ⟨y, m, d, hh, mi, sec⟩
            else none
          else none
        | _ => none
      | _ => none
    | _ => none
  | _ => none

-- ## Model of `fetch_trades`, `fetch_deposits`, `fetch_withdrawals`

/-- The command-line arguments relevant to the fetch functions
(`argparse.Namespace` of crawler.py lines 97-129).  `arguments.end` is
either the string the user passed or, by default, the
`datetime.datetime.now()` object, hence a sum type. -/
structure Args where
  cookies : String
  token : String
  output : String
  mode : String
  start : String
  endArg : String ⊕ DateTime
deriving DecidableEq, Repr

/-- Message of the `ValueError` raised for a malformed start time
(crawler.py line 53). -/
def startTimeErrMsg : String :=
  "The given start time format is wrong. Format YYYY-MM-DD HH:MM:SS is required."

/-- Message of the `ValueError` raised for a malformed end time
(crawler.py line 59). -/
def endTimeErrMsg : String :=
  "The given end time format is wrong. Format YYYY-MM-DD HH:MM:SS is required."

/-- Model of `fetch_trades(connection, arguments)` (crawler.py lines
39-66): parse `arguments.start` with `strptime` (raising `ValueError`
with a user-facing message on failure), parse `arguments.end` likewise
unless it is already a `datetime`, then call `connection.trades`.  The
`Except.error` branches model the raised `ValueError`s; no fetch happens
there — `trades` is only reached in the `.ok` branch. -/
def fetch_trades (f : Nat → Nat → List α) (arguments : Args) :
    Except String (List (Nat × Nat) × List α) :=
  match strptime arguments.start with
  | none => .error startTimeErrMsg
  | some start_date =>
    match arguments.endArg with
    | .inl endStr =>
      match strptime endStr with
      | none => .error endTimeErrMsg
      | some end_date => .ok (trades f (toSec start_date) (toSec end_date))
    | .inr end_date => .ok (trades f (toSec start_date) (toSec end_date))

/-- Modelled from the spec: a literal reading of "the format
YYYY-MM-DD HH:MM:SS" — four year digits, two zero-padded digits for each
of month, day, hour, minute and second, with `-`, a single blank and `:`
as separators.  (The repository's parser is `strptime` above; this
definition exists only to state the claim's wording precisely.) -/
def matchesLiteralYmdHMS (str : String) : Bool :=
  match str.toList with
  | [y1, y2, y3, y4, '-', m1, m2, '-', d1, d2, ' ', h1, h2, ':', n1, n2, ':', s1, s2] =>
    [y1, y2, y3, y4, m1, m2, d1, d2, h1, h2, n1, n2, s1, s2].all Char.isDigit
  | _ => false

-- ## Model of the deposits / withdrawals path

/-- The POST form data `BinanceConnection._get_exchanges` sends to
`getMoneyLog.html` (crawler.py lines 226-234). -/
structure ExchangeRequest where
  coin : String
  direction : Nat
  rows : Nat
  page : Nat
  status : String
deriving DecidableEq, Repr

/-- Value of `BinanceConnection.Exchange.DEPOSIT` (crawler.py line 139). -/
def Exchange.DEPOSIT : Nat := 0

/-- Value of `BinanceConnection.Exchange.WITHDRAWAL` (crawler.py line 140). -/
def Exchange.WITHDRAWAL : Nat := 1

/-- Model of `BinanceConnection._get_exchanges(symbol, type)` (crawler.py
lines 213-246): build the fixed form data (`rows = 0`, `page = 1`,
empty `status`, `coin` from the optional symbol) and POST it once; the
HTTP endpoint is the oracle `http`.  Returns the issued request together
with the `(pages, data)` the endpoint answered. -/
def _get_exchanges (http : ExchangeRequest → Nat × List α)
    (symbol : Option String) (type : Nat) : ExchangeRequest × (Nat × List α) :=
  let req : ExchangeRequest :=
    ⟨(match symbol with | none => "" | some sym => sym), type, 0, 1, ""⟩
  (req, http req)

/-- Model of `BinanceConnection.deposits(**kwargs)` (crawler.py lines
289-306): one `_get_exchanges` call with `type = Exchange.DEPOSIT`.
Returns the issued requests (ghost instrumentation) and the result list. -/
def deposits (http : ExchangeRequest → Nat × List α) (symbol : Option String) :
    List ExchangeRequest × List α :=
  ((_get_exchanges http symbol Exchange.DEPOSIT).1 :: [],
    (_get_exchanges http symbol Exchange.DEPOSIT).2.2)

/-- Model of `BinanceConnection.withdrawals(**kwargs)` (crawler.py lines
308-326): one `_get_exchanges` call with `type = Exchange.WITHDRAWAL`. -/
def withdrawals (http : ExchangeRequest → Nat × List α) (symbol : Option String) :
    List ExchangeRequest × List α :=
  ((_get_exchanges http symbol Exchange.WITHDRAWAL).1 :: [],
    (_get_exchanges http symbol Exchange.WITHDRAWAL).2.2)

/-- Model of `fetch_deposits(connection, arguments)` (crawler.py lines
69-80): `connection.deposits()` with empty kwargs; `arguments` is not
inspected at all. -/
def fetch_deposits (http : ExchangeRequest → Nat × List α) (arguments : Args) :
    List ExchangeRequest × List α :=
  deposits http none

/-- Model of `fetch_withdrawals(connection, arguments)` (crawler.py lines
83-94): `connection.withdrawals()` with empty kwargs; `arguments` is not
inspected at all. -/
def fetch_withdrawals (http : ExchangeRequest → Nat × List α) (arguments : Args) :
    List ExchangeRequest × List α :=
  withdrawals http none

-- ## Definitional unfoldings of the fuelled loops (proved by `rfl`)

theorem tradesGo_zero (f : Nat → Nat → List α) (s e : Nat) :
    tradesGo f 0 s e = ([(s, e)], f s e) := rfl

theorem tradesGo_succ (f : Nat → Nat → List α) (k s e : Nat) :
    tradesGo f (k + 1) s e =
      if s + days28 < e then
        ((s, s + days28) :: (tradesGo f k (s + days28) e).1,
          f s (s + days28) ++ (tradesGo f k (s + days28) e).2)
      else ([(s, e)], f s e) := rfl

theorem tradesGoE_zero (f : Nat → Nat → Except ε (List α)) (s e : Nat) :
    tradesGoE f 0 s e = ([(s, e)], f s e) := rfl

theorem tradesGoE_succ (f : Nat → Nat → Except ε (List α)) (k s e : Nat) :
    tradesGoE f (k + 1) s e =
      if s + days28 < e then
        match f s (s + days28) with
        | .error err => ([(s, s + days28)], .error err)
        | .ok r =>
          ((s, s + days28) :: (tradesGoE f k (s + days28) e).1,
            (tradesGoE f k (s + days28) e).2.map (fun rs => r ++ rs))
      else ([(s, e)], f s e) := rfl

-- ## Basic facts about the constants and `dayFloor`

theorem days28_pos : 0 < days28 := by decide

theorem secondsPerDay_lt_days28 : secondsPerDay < days28 := by decide

theorem dayFloor_le (t : Nat) : dayFloor t ≤ t := by
  simp only [dayFloor]
  exact Nat.div_mul_le_self t secondsPerDay

theorem dayFloor_gap (t : Nat) : t - dayFloor t < secondsPerDay := by
  simp only [dayFloor, secondsPerDay]
  omega

theorem dayFloor_mod (t : Nat) : dayFloor t % secondsPerDay = 0 := by
  simp only [dayFloor]
  exact Nat.mul_mod_left _ _

-- ## The fuel is irrelevant as long as it dominates `e - s`

theorem tradesGo_congr (f : Nat → Nat → List α) :
    ∀ (n m s e : Nat), e - s ≤ n → e - s ≤ m →
      tradesGo f n s e = tradesGo f m s e := by
  intro n
  induction n with
  | zero =>
    intro m s e hn _
    have hle : ¬ s + days28 < e := by have := days28_pos; omega
    cases m with
    | zero => rfl
    | succ k => rw [tradesGo_zero, tradesGo_succ, if_neg hle]
  | succ k ih =>
    intro m s e hn hm
    by_cases h : s + days28 < e
    · have hd := days28_pos
      cases m with
      | zero => omega
      | succ l =>
        rw [tradesGo_succ, tradesGo_succ, if_pos h, if_pos h,
          ih l (s + days28) e (by omega) (by omega)]
    · cases m with
      | zero => rw [tradesGo_succ, tradesGo_zero, if_neg h]
      | succ l => rw [tradesGo_succ, tradesGo_succ, if_neg h, if_neg h]

/-- The defining equation of the windowing loop, fuel-free.  This is the
faithful rendering of crawler.py lines 274-285: while
`end_interval < end` holds (here `end_interval = s + days28`), fetch
`[start_interval, end_interval]`, append, and advance both interval
bounds by 28 days; afterwards fetch `[start_interval, end]` and append
(lines 282-285). -/
theorem tradesLoop_eq (f : Nat → Nat → List α) (s e : Nat) :
    tradesLoop f s e =
      if s + days28 < e then
        ((s, s + days28) :: (tradesLoop f (s + days28) e).1,
          f s (s + days28) ++ (tradesLoop f (s + days28) e).2)
      else ([(s, e)], f s e) := by
  have hd := days28_pos
  by_cases h : s + days28 < e
  · obtain ⟨k, hk⟩ : ∃ k, e - s = k + 1 := ⟨e - s - 1, by omega⟩
    simp only [tradesLoop, hk]
    rw [tradesGo_succ, if_pos h, if_pos h,
      tradesGo_congr f k (e - (s + days28)) (s + days28) e (by omega) (by omega)]
  · simp only [tradesLoop, if_neg h]
    cases h0 : e - s with
    | zero => rfl
    | succ k => rw [tradesGo_succ, if_neg h]

/-- Analogue of `tradesLoop_eq` for the raising-oracle loop. -/
theorem tradesLoopE_eq (f : Nat → Nat → Except ε (List α)) (s e : Nat) :
    tradesLoopE f s e =
      if s + days28 < e then
        match f s (s + days28) with
        | .error err => ([(s, s + days28)], .error err)
        | .ok r =>
          ((s, s + days28) :: (tradesLoopE f (s + days28) e).1,
            (tradesLoopE f (s + days28) e).2.map (fun rs => r ++ rs))
      else ([(s, e)], f s e) := by
  have hd := days28_pos
  have congrE : ∀ (n m s e : Nat), e - s ≤ n → e - s ≤ m →
      tradesGoE f n s e = tradesGoE f m s e := by
    intro n
    induction n with
    | zero =>
      intro m s e hn _
      have hle : ¬ s + days28 < e := by omega
      cases m with
      | zero => rfl
      | succ k => rw [tradesGoE_zero, tradesGoE_succ, if_neg hle]
    | succ k ih =>
      intro m s e hn hm
      by_cases h : s + days28 < e
      · cases m with
        | zero => omega
        | succ l =>
          rw [tradesGoE_succ, tradesGoE_succ, if_pos h, if_pos h,
            ih l (s + days28) e (by omega) (by omega)]
      · cases m with
        | zero => rw [tradesGoE_succ, tradesGoE_zero, if_neg h]
        | succ l => rw [tradesGoE_succ, tradesGoE_succ, if_neg h, if_neg h]
  by_cases h : s + days28 < e
  · obtain ⟨k, hk⟩ : ∃ k, e - s = k + 1 := ⟨e - s - 1, by omega⟩
    unfold tradesLoopE
    rw [hk, tradesGoE_succ, if_pos h, if_pos h,
      congrE k (e - (s + days28)) (s + days28) e (by omega) (by omega)]
  · unfold tradesLoopE
    rw [if_neg h]
    cases h0 : e - s with
    | zero => rfl
    | succ k => rw [tradesGoE_succ, if_neg h]

-- ## Shape lemmas about the issued window list

theorem tradesGo_fst_ne_nil (f : Nat → Nat → List α) (n s e : Nat) :
    (tradesGo f n s e).1 ≠ [] := by
  cases n with
  | zero => rw [tradesGo_zero]; simp
  | succ k => rw [tradesGo_succ]; split <;> simp

theorem tradesGo_fst_indep (f : Nat → Nat → List α) (g : Nat → Nat → List β) :
    ∀ (n s e : Nat), (tradesGo f n s e).1 = (tradesGo g n s e).1 := by
  intro n
  induction n with
  | zero => intro s e; rw [tradesGo_zero, tradesGo_zero]
  | succ k ih =>
    intro s e
    rw [tradesGo_succ, tradesGo_succ]
    by_cases h : s + days28 < e
    · rw [if_pos h, if_pos h]
      simp [ih (s + days28) e]
    · rw [if_neg h, if_neg h]

theorem tradesGo_snd_flatMap (f : Nat → Nat → List α) :
    ∀ (n s e : Nat),
      (tradesGo f n s e).2 = (tradesGo f n s e).1.flatMap (fun w => f w.1 w.2) := by
  intro n
  induction n with
  | zero => intro s e; rw [tradesGo_zero]; simp
  | succ k ih =>
    intro s e
    rw [tradesGo_succ]
    by_cases h : s + days28 < e
    · rw [if_pos h]
      simp [ih (s + days28) e]
    · rw [if_neg h]; simp

theorem tradesGo_head_fst (f : Nat → Nat → List α) (n s e : Nat) :
    ∃ b, (tradesGo f n s e).1.head? = some (s, b) := by
  cases n with
  | zero => exact ⟨e, by rw [tradesGo_zero]; rfl⟩
  | succ k =>
    rw [tradesGo_succ]
    by_cases h : s + days28 < e
    · exact ⟨s + days28, by rw [if_pos h]; rfl⟩
    · exact ⟨e, by rw [if_neg h]; rfl⟩

theorem tradesGo_chain (f : Nat → Nat → List α) :
    ∀ (n s e : Nat),
      List.Chain' (fun a b : Nat × Nat => a.2 = b.1) (tradesGo f n s e).1 := by
  intro n
  induction n with
  | zero => intro s e; rw [tradesGo_zero]; simp
  | succ k ih =>
    intro s e
    rw [tradesGo_succ]
    by_cases h : s + days28 < e
    · rw [if_pos h]
      refine List.chain'_cons'.2 ⟨?_, ih (s + days28) e⟩
      intro y hy
      obtain ⟨b, hb⟩ := tradesGo_head_fst f k (s + days28) e
      rw [hb] at hy
      cases hy
      rfl
    · rw [if_neg h]; simp

theorem tradesGo_dropLast (f : Nat → Nat → List α) :
    ∀ (n s e : Nat), ∀ a ∈ (tradesGo f n s e).1.dropLast, a.2 = a.1 + days28 := by
  intro n
  induction n with
  | zero => intro s e a ha; rw [tradesGo_zero] at ha; simp at ha
  | succ k ih =>
    intro s e a ha
    rw [tradesGo_succ] at ha
    by_cases h : s + days28 < e
    · rw [if_pos h] at ha
      obtain ⟨x, t, hxt⟩ :=
        List.exists_cons_of_ne_nil (tradesGo_fst_ne_nil f k (s + days28) e)
      rw [hxt] at ha
      simp only [List.dropLast_cons₂, List.mem_cons] at ha
      rcases ha with rfl | ha
      · rfl
      · exact ih (s + days28) e a (by rw [hxt]; simpa using ha)
    · rw [if_neg h] at ha
      simp at ha

theorem tradesGo_getLast_snd (f : Nat → Nat → List α) :
    ∀ (n s e : Nat), ((tradesGo f n s e).1.getLast?).map Prod.snd = some e := by
  intro n
  induction n with
  | zero => intro s e; rw [tradesGo_zero]; simp
  | succ k ih =>
    intro s e
    rw [tradesGo_succ]
    by_cases h : s + days28 < e
    · rw [if_pos h]
      obtain ⟨x, t, hxt⟩ :=
        List.exists_cons_of_ne_nil (tradesGo_fst_ne_nil f k (s + days28) e)
      rw [hxt, List.getLast?_cons_cons, ← hxt]
      exact ih (s + days28) e
    · rw [if_neg h]; simp

-- ## Relating `trades`, `tradesWindows` and the loop

theorem trades_fst (f : Nat → Nat → List α) (start e : Nat) :
    (trades f start e).1 = tradesWindows start e :=
  tradesGo_fst_indep f _ _ _ _

theorem tradesLoop_base (f : Nat → Nat → List α) (s e : Nat)
    (h : ¬ s + days28 < e) : tradesLoop f s e = ([(s, e)], f s e) := by
  rw [tradesLoop_eq, if_neg h]

theorem tradesLoop_step (f : Nat → Nat → List α) (s e : Nat)
    (h : s + days28 < e) :
    tradesLoop f s e =
      ((s, s + days28) :: (tradesLoop f (s + days28) e).1,
        f s (s + days28) ++ (tradesLoop f (s + days28) e).2) := by
  rw [tradesLoop_eq, if_pos h]

theorem tradesWindows_single (start e : Nat)
    (h : e ≤ dayFloor start + days28) :
    tradesWindows start e = [(dayFloor start, e)] := by
  have hb : ¬ dayFloor start + days28 < e := by omega
  unfold tradesWindows trades
  rw [tradesLoop_base _ _ _ hb]

-- ## Closed form of the window list for ranges of shape N * 28d + r

theorem tradesGo_fst_base (f : Nat → Nat → List α) (n s e : Nat)
    (h : ¬ s + days28 < e) : (tradesGo f n s e).1 = [(s, e)] := by
  cases n with
  | zero => rfl
  | succ k => rw [tradesGo_succ, if_neg h]

theorem tradesGo_fst_succ (f : Nat → Nat → List α) (k s e : Nat)
    (h : s + days28 < e) :
    (tradesGo f (k + 1) s e).1 = (s, s + days28) :: (tradesGo f k (s + days28) e).1 := by
  rw [tradesGo_succ, if_pos h]

theorem tradesGo_closed (f : Nat → Nat → List α) :
    ∀ (N n s r : Nat), 0 < r → r ≤ days28 → N * days28 + r ≤ n →
      (tradesGo f n s (s + (N * days28 + r))).1 =
        (List.range (N + 1)).map
          (fun k => (s + k * days28,
            if k = N then s + (N * days28 + r) else s + (k + 1) * days28)) := by
  intro N
  induction N with
  | zero =>
    intro n s r hr hrle hn
    have hcond : ¬ s + days28 < s + (0 * days28 + r) := by omega
    rw [tradesGo_fst_base f n s _ hcond]
    simp [List.range_succ]
  | succ N ih =>
    intro n s r hr hrle hn
    have hd := days28_pos
    have hmul : (N + 1) * days28 = N * days28 + days28 := by ring
    rw [hmul] at hn
    have hcond : s + days28 < s + ((N + 1) * days28 + r) := by
      rw [hmul]; omega
    obtain ⟨m, hm⟩ : ∃ m, n = m + 1 := ⟨n - 1, by omega⟩
    rw [hm, tradesGo_fst_succ f m s _ hcond]
    have he : s + ((N + 1) * days28 + r) = (s + days28) + (N * days28 + r) := by ring
    have hfuel : N * days28 + r ≤ m := by omega
    have ihs := ih m (s + days28) r hr hrle hfuel
    rw [he, ihs]
    conv_rhs => rw [List.range_succ_eq_map]
    rw [List.map_cons, List.map_map]
    congr 1
    apply List.map_congr_left
    intro a ha
    simp only [Function.comp_apply, Nat.succ_eq_add_one, Prod.mk.injEq]
    constructor
    · ring
    · by_cases hjN : a = N
      · rw [if_pos hjN, if_pos (by omega : a + 1 = N + 1)]
      · rw [if_neg hjN, if_neg (by omega : ¬ (a + 1 = N + 1))]
        ring


-- ## Lemmas about the raising-oracle loop

theorem tradesGoE_succ_err (f : Nat → Nat → Except ε (List α)) (k s e : Nat)
    (err : ε) (h : s + days28 < e) (hf : f s (s + days28) = .error err) :
    tradesGoE f (k + 1) s e = ([(s, s + days28)], .error err) := by
  rw [tradesGoE_succ, if_pos h, hf]

theorem tradesGoE_succ_ok (f : Nat → Nat → Except ε (List α)) (k s e : Nat)
    (r : List α) (h : s + days28 < e) (hf : f s (s + days28) = .ok r) :
    tradesGoE f (k + 1) s e =
      ((s, s + days28) :: (tradesGoE f k (s + days28) e).1,
        (tradesGoE f k (s + days28) e).2.map (fun rs => r ++ rs)) := by
  rw [tradesGoE_succ, if_pos h, hf]

theorem tradesGoE_fst_ne_nil (f : Nat → Nat → Except ε (List α)) (n s e : Nat) :
    (tradesGoE f n s e).1 ≠ [] := by
  cases n with
  | zero => rw [tradesGoE_zero]; simp
  | succ k =>
    by_cases h : s + days28 < e
    · cases hf : f s (s + days28) with
      | error err => rw [tradesGoE_succ_err f k s e err h hf]; simp
      | ok r => rw [tradesGoE_succ_ok f k s e r h hf]; simp
    · rw [tradesGoE_succ, if_neg h]; simp

theorem tradesGoE_fst_prefix (f : Nat → Nat → Except ε (List α))
    (g : Nat → Nat → List β) :
    ∀ (n s e : Nat), (tradesGoE f n s e).1 <+: (tradesGo g n s e).1 := by
  intro n
  induction n with
  | zero =>
    intro s e
    rw [tradesGoE_zero, tradesGo_zero]
  | succ k ih =>
    intro s e
    by_cases h : s + days28 < e
    · rw [tradesGo_succ, if_pos h]
      cases hf : f s (s + days28) with
      | error err =>
        rw [tradesGoE_succ_err f k s e err h hf]
        exact ⟨(tradesGo g k (s + days28) e).1, rfl⟩
      | ok r =>
        rw [tradesGoE_succ_ok f k s e r h hf]
        obtain ⟨t, ht⟩ := ih (s + days28) e
        exact ⟨t, by simp [← ht]⟩
    · rw [tradesGoE_succ, tradesGo_succ, if_neg h, if_neg h]

theorem tradesGoE_error_elim (f : Nat → Nat → Except ε (List α)) :
    ∀ (n s e : Nat) (err : ε), (tradesGoE f n s e).2 = .error err →
      ∃ w, (tradesGoE f n s e).1.getLast? = some w ∧ f w.1 w.2 = .error err ∧
        ∀ u ∈ (tradesGoE f n s e).1.dropLast, ∃ r, f u.1 u.2 = .ok r := by
  intro n
  induction n with
  | zero =>
    intro s e err hres
    rw [tradesGoE_zero] at hres ⊢
    exact ⟨(s, e), by simp, hres, by simp⟩
  | succ k ih =>
    intro s e err hres
    by_cases h : s + days28 < e
    · cases hf : f s (s + days28) with
      | error err0 =>
        rw [tradesGoE_succ_err f k s e err0 h hf] at hres ⊢
        simp only at hres
        cases hres
        exact ⟨(s, s + days28), by simp, hf, by simp⟩
      | ok r =>
        rw [tradesGoE_succ_ok f k s e r h hf] at hres ⊢
        simp only at hres
        have hres2 : (tradesGoE f k (s + days28) e).2 = .error err := by
          cases hx : (tradesGoE f k (s + days28) e).2 with
          | error err1 =>
            rw [hx] at hres
            simp only [Except.map] at hres
            cases hres
            rfl
          | ok rs =>
            rw [hx] at hres
            simp only [Except.map] at hres
            exact absurd hres (by simp)
        obtain ⟨w, hw1, hw2, hw3⟩ := ih (s + days28) e err hres2
        obtain ⟨x, t, hxt⟩ :=
          List.exists_cons_of_ne_nil (tradesGoE_fst_ne_nil f k (s + days28) e)
        refine ⟨w, ?_, hw2, ?_⟩
        · rw [hxt, List.getLast?_cons_cons, ← hxt]
          exact hw1
        · intro u hu
          rw [hxt] at hu
          simp only [List.dropLast_cons₂, List.mem_cons] at hu
          rcases hu with rfl | hu
          · exact ⟨r, hf⟩
          · exact hw3 u (by rw [hxt]; simpa using hu)
    · rw [tradesGoE_succ, if_neg h] at hres ⊢
      exact ⟨(s, e), by simp, hres, by simp⟩

theorem tradesGoE_error_total (f : Nat → Nat → Except ε (List α))
    (g : Nat → Nat → List β) :
    ∀ (n s e : Nat),
      (∃ w ∈ (tradesGo g n s e).1, ∃ err, f w.1 w.2 = .error err) →
      ∃ err', (tradesGoE f n s e).2 = .error err' := by
  intro n
  induction n with
  | zero =>
    intro s e ⟨w, hw, err, herr⟩
    rw [tradesGo_zero] at hw
    simp at hw
    subst hw
    exact ⟨err, by rw [tradesGoE_zero]; exact herr⟩
  | succ k ih =>
    intro s e ⟨w, hw, err, herr⟩
    rw [tradesGo_succ] at hw
    by_cases h : s + days28 < e
    · rw [if_pos h] at hw
      cases hf : f s (s + days28) with
      | error err0 =>
        exact ⟨err0, by rw [tradesGoE_succ_err f k s e err0 h hf]⟩
      | ok r =>
        rw [tradesGoE_succ_ok f k s e r h hf]
        simp only [List.mem_cons] at hw
        rcases hw with rfl | hw
        · exact absurd herr (by simp [hf])
        · obtain ⟨err', herr'⟩ := ih (s + days28) e ⟨w, hw, err, herr⟩
          refine ⟨err', ?_⟩
          simp only
          rw [herr']
          rfl
    · rw [if_neg h] at hw
      simp at hw
      subst hw
      rw [tradesGoE_succ, if_neg h]
      exact ⟨err, herr⟩

-- ## Claim theorems

/-- Claim C1, counterexample.  The claim says: for every `start`/`end`
with `end - start ≤ 28` days, exactly one `_get_trades` call occurs.
False: with `start` one hour past midnight (t = 3600) and
`end = start + 28 days` (t = 2422800) we have `end - start ≤ 28` days,
yet the day-normalization of the window start makes the loop body run
once, so two fetch calls are issued. -/
theorem claim1_counterexample :
    2422800 - 3600 ≤ days28 ∧
      tradesWindows 3600 2422800 = [(0, 2419200), (2419200, 2422800)] ∧
      (tradesWindows 3600 2422800).length ≠ 1 := by
  refine ⟨by decide, by decide, by decide⟩

/-- Claim C1, amended: for every `start`/`end` with
`end ≤ dayFloor start + 28` days — the 28-day bound measured from the
day-normalized start, which is where the code's first window begins —
`BinanceConnection.trades` issues exactly one fetch call, for the
interval `[dayFloor start, end]`, and that interval covers
`[start, end]` because `dayFloor start ≤ start`. -/
theorem claim1_single_fetch (start e : Nat) (h : e ≤ dayFloor start + days28) :
    tradesWindows start e = [(dayFloor start, e)] ∧ dayFloor start ≤ start :=
  ⟨tradesWindows_single start e h, dayFloor_le start⟩

/-- Witness for `claim1_single_fetch` at `start = 3600`, `end = 86400`. -/
theorem claim1_single_fetch_witness :
    86400 ≤ dayFloor 3600 + days28 ∧
      (tradesWindows 3600 86400 = [(dayFloor 3600, 86400)] ∧ dayFloor 3600 ≤ 3600) :=
  ⟨by decide, claim1_single_fetch 3600 86400 (by decide)⟩

/-- Claim C3: `BinanceConnection.trades` always issues at least one
fetch call — the trailing `_get_trades` call after the loop is
unconditional and its `end` argument is the overall `end` — and when
`start = end` exactly one call is issued, for the window
`[dayFloor start, end]`. -/
theorem claim3_always_fetches (f : Nat → Nat → List α) (start e : Nat) :
    (trades f start e).1 ≠ [] ∧
      ((trades f start e).1.getLast?).map Prod.snd = some e ∧
      (start = e → (trades f start e).1 = [(dayFloor start, e)]) := by
  refine ⟨tradesGo_fst_ne_nil f _ _ _, tradesGo_getLast_snd f _ _ _, ?_⟩
  intro hse
  have h1 := dayFloor_le start
  have h2 := dayFloor_gap start
  have h3 := secondsPerDay_lt_days28
  have hb : ¬ dayFloor start + days28 < e := by omega
  show (tradesLoop f (dayFloor start) e).1 = _
  rw [tradesLoop_base f _ _ hb]

/-- Witness for `claim3_always_fetches` at `start = end = 86401`. -/
theorem claim3_always_fetches_witness :
    (86401 : Nat) = 86401 ∧
      (trades (fun _ _ => ([] : List Nat)) 86401 86401).1 = [(dayFloor 86401, 86401)] :=
  ⟨rfl, (claim3_always_fetches (fun _ _ => ([] : List Nat)) 86401 86401).2.2 rfl⟩

/-- Claim C4: `BinanceConnection.trades` sets the first window's start
to the beginning of `start`'s calendar day (`dayFloor start`: a multiple
of 86400 seconds, at most `start`, and less than a day below it) and the
first window's end to that normalized start plus exactly 28 days
(truncated to the overall `end` when even the first window already
reaches past it); on the spec's example — start 2018-01-05 00:30:00,
end 2018-03-10 00:00:00 — the issued windows are
[2018-01-05, 2018-02-02], [2018-02-02, 2018-03-02] and
[2018-03-02, 2018-03-10 00:00:00]. -/
theorem claim4_first_window (start e : Nat) :
    dayFloor start % secondsPerDay = 0 ∧
      dayFloor start ≤ start ∧
      start - dayFloor start < secondsPerDay ∧
      (tradesWindows start e).head? =
        some (dayFloor start,
          if dayFloor start + days28 < e then dayFloor start + days28 else e) ∧
      tradesWindows (toSec ⟨2018, 1, 5, 0, 30, 0⟩) (toSec ⟨2018, 3, 10, 0, 0, 0⟩) =
        [(toSec ⟨2018, 1, 5, 0, 0, 0⟩, toSec ⟨2018, 2, 2, 0, 0, 0⟩),
          (toSec ⟨2018, 2, 2, 0, 0, 0⟩, toSec ⟨2018, 3, 2, 0, 0, 0⟩),
          (toSec ⟨2018, 3, 2, 0, 0, 0⟩, toSec ⟨2018, 3, 10, 0, 0, 0⟩)] := by
  refine ⟨dayFloor_mod start, dayFloor_le start, dayFloor_gap start, ?_, by decide⟩
  by_cases h : dayFloor start + days28 < e
  · rw [if_pos h]
    show ((tradesLoop (fun _ _ => ([] : List Unit)) (dayFloor start) e).1).head? = _
    rw [tradesLoop_step _ _ _ h]
    rfl
  · rw [if_neg h]
    show ((tradesLoop (fun _ _ => ([] : List Unit)) (dayFloor start) e).1).head? = _
    rw [tradesLoop_base _ _ _ h]
    rfl

/-- Claim C5: in every run the queried windows are contiguous (each
call's start is the previous call's end), every non-final window is
exactly 28 days long, and the final window ends at the true overall
`end`. -/
theorem claim5_windows_contiguous (start e : Nat) :
    (∀ (i : Nat) (h : i + 1 < (tradesWindows start e).length),
        ((tradesWindows start e).get ⟨i, Nat.lt_of_succ_lt h⟩).2 =
          ((tradesWindows start e).get ⟨i + 1, h⟩).1) ∧
      (∀ a ∈ (tradesWindows start e).dropLast, a.2 = a.1 + days28) ∧
      ((tradesWindows start e).getLast?).map Prod.snd = some e := by
  refine ⟨?_, tradesGo_dropLast _ _ _ _, tradesGo_getLast_snd _ _ _ _⟩
  have hc := tradesGo_chain (fun _ _ => ([] : List Unit))
    (e - dayFloor start) (dayFloor start) e
  intro i h
  have h2 : i < (tradesWindows start e).length - 1 := by omega
  exact List.chain'_iff_get.1 hc i h2

/-- Witness for `claim5_windows_contiguous` at `start = 0`,
`end = days28 + 1` (two windows). -/
theorem claim5_windows_contiguous_witness :
    ((tradesWindows 0 (days28 + 1)).get ⟨0, by decide⟩).2 =
      ((tradesWindows 0 (days28 + 1)).get ⟨1, by decide⟩).1 :=
  (claim5_windows_contiguous 0 (days28 + 1)).1 0 (by decide)

/-- Claim C8: for `start > end` the windowing loop never runs, yet the
mandatory trailing fetch still fires, with the (reversed) window
`[dayFloor start, end]` — exactly one call, whose start can exceed its
end — and no input-validation error is raised: `trades` still returns
the single fetch's result. -/
theorem claim8_reversed_range (f : Nat → Nat → List α) (start e : Nat)
    (h : e < start) :
    (trades f start e).1 = [(dayFloor start, e)] ∧
      (trades f start e).2 = f (dayFloor start) e := by
  have h1 := dayFloor_le start
  have h2 := dayFloor_gap start
  have h3 := secondsPerDay_lt_days28
  have hb : ¬ dayFloor start + days28 < e := by omega
  have hbase := tradesLoop_base f (dayFloor start) e hb
  constructor
  · show (tradesLoop f (dayFloor start) e).1 = _
    rw [hbase]
  · show (tradesLoop f (dayFloor start) e).2 = _
    rw [hbase]

/-- Witness for `claim8_reversed_range` at `start = 86400`, `end = 0`:
the issued window is `(86400, 0)`, a negative-duration interval. -/
theorem claim8_reversed_range_witness :
    (0 : Nat) < 86400 ∧
      ((trades (fun _ _ => ([] : List Nat)) 86400 0).1 = [(dayFloor 86400, 0)] ∧
        (trades (fun _ _ => ([] : List Nat)) 86400 0).2 = (fun _ _ => ([] : List Nat)) (dayFloor 86400) 0) :=
  ⟨by decide, claim8_reversed_range (fun _ _ => ([] : List Nat)) 86400 0 (by decide)⟩

/-- Claim C2, counterexample.  The claim says: when the range
`end - start` spans `N` full 28-day periods plus a non-empty remainder,
exactly `N + 1` fetch calls occur.  False: with `start = 43200` (noon of
day 0) and `end = 43200 + 1 * days28 + (days28 - 1)` the range spans one
full period plus a non-empty remainder, so the claim predicts 2 calls,
but the day-normalized window grid makes the code issue 3. -/
theorem claim2_counterexample :
    (4881599 - 43200 = 1 * days28 + (days28 - 1) ∧
        0 < days28 - 1 ∧ days28 - 1 < days28) ∧
      (tradesWindows 43200 4881599).length = 3 ∧
      (tradesWindows 43200 4881599).length ≠ 1 + 1 := by
  refine ⟨⟨by decide, by decide, by decide⟩, by decide, by decide⟩

/-- Claim C2, amended: when the range measured from the day-normalized
start spans `N` full 28-day periods plus a non-empty remainder `r`
(`end = dayFloor start + N * days28 + r`, `0 < r < days28`),
`BinanceConnection.trades` issues exactly `N + 1` fetch calls, the
window boundaries of successive calls are strictly increasing (both
starts and ends), and the final call's `end` argument is the original
`end` exactly, not a rounded window boundary. -/
theorem claim2_window_count (start e N r : Nat)
    (he : e = dayFloor start + (N * days28 + r)) (hr : 0 < r) (hrlt : r < days28) :
    (tradesWindows start e).length = N + 1 ∧
      (∀ (i : Nat) (h : i + 1 < (tradesWindows start e).length),
        ((tradesWindows start e).get ⟨i, Nat.lt_of_succ_lt h⟩).1 <
            ((tradesWindows start e).get ⟨i + 1, h⟩).1 ∧
          ((tradesWindows start e).get ⟨i, Nat.lt_of_succ_lt h⟩).2 <
            ((tradesWindows start e).get ⟨i + 1, h⟩).2) ∧
      ((tradesWindows start e).getLast?).map Prod.snd = some e := by
  have hd := days28_pos
  have hgo : tradesWindows start e =
      (tradesGo (fun _ _ => ([] : List Unit)) (e - dayFloor start) (dayFloor start) e).1 := rfl
  have hfuel : N * days28 + r ≤ e - dayFloor start := by omega
  have hclosed := tradesGo_closed (fun _ _ => ([] : List Unit)) N
    (e - dayFloor start) (dayFloor start) r hr (Nat.le_of_lt hrlt) hfuel
  rw [← he] at hclosed
  have hW : tradesWindows start e =
      (List.range (N + 1)).map
        (fun k => (dayFloor start + k * days28,
          if k = N then e else dayFloor start + (k + 1) * days28)) := by
    rw [hgo, hclosed]
  have hlen : (tradesWindows start e).length = N + 1 := by
    rw [hW]; simp
  refine ⟨hlen, ?_, tradesGo_getLast_snd _ _ _ _⟩
  intro i h
  have hi : i < N := by omega
  have hiN : ¬ (i = N) := by omega
  have hmul1 : (i + 1) * days28 = i * days28 + days28 := by ring
  have hmul2 : (i + 1 + 1) * days28 = (i + 1) * days28 + days28 := by ring
  constructor
  · simp only [hW, List.get_eq_getElem, List.getElem_map, List.getElem_range]
    omega
  · simp only [hW, List.get_eq_getElem, List.getElem_map, List.getElem_range]
    rw [if_neg hiN]
    by_cases hiN1 : i + 1 = N
    · rw [if_pos hiN1]
      subst hiN1
      omega
    · rw [if_neg hiN1]
      omega

/-- Witness for `claim2_window_count` at `start = 30`,
`end = 2 * days28 + 5` (so `N = 2`, `r = 5`): three fetch calls. -/
theorem claim2_window_count_witness :
    (4838405 = dayFloor 30 + (2 * days28 + 5) ∧ 0 < 5 ∧ 5 < days28) ∧
      (tradesWindows 30 4838405).length = 2 + 1 :=
  ⟨⟨by decide, by decide, by decide⟩,
    (claim2_window_count 30 4838405 2 5 (by decide) (by decide) (by decide)).1⟩

/-- Claim C6: the list `BinanceConnection.trades` returns is exactly the
concatenation, in request order, of the per-window lists the remote
source answered — no reordering, dropping, deduplication or insertion. -/
theorem claim6_result_concat (f : Nat → Nat → List α) (start e : Nat) :
    (trades f start e).1 = tradesWindows start e ∧
      (trades f start e).2 = (tradesWindows start e).flatMap (fun w => f w.1 w.2) := by
  refine ⟨trades_fst f start e, ?_⟩
  have hsnd := tradesGo_snd_flatMap f (e - dayFloor start) (dayFloor start) e
  have hfst := trades_fst f start e
  show (tradesGo f (e - dayFloor start) (dayFloor start) e).2 = _
  rw [hsnd]
  show (trades f start e).1.flatMap _ = _
  rw [hfst]

/-- Claim C7: if the fetch of some window in the schedule raises, the
exception propagates (`trades` produces no result list, only the
error), the calls actually issued form a prefix of the schedule, the
last issued call is the raising one, and every earlier call succeeded —
so no fetch is issued for any window after the raising one, and the
partial accumulation is discarded. -/
theorem claim7_exception_aborts (f : Nat → Nat → Except ε (List α))
    (start e : Nat)
    (hraise : ∃ w ∈ tradesWindows start e, ∃ err, f w.1 w.2 = .error err) :
    ∃ err, (tradesE f start e).2 = .error err ∧
      (tradesE f start e).1 <+: tradesWindows start e ∧
      (∃ w, (tradesE f start e).1.getLast? = some w ∧ f w.1 w.2 = .error err) ∧
      ∀ u ∈ (tradesE f start e).1.dropLast, ∃ r, f u.1 u.2 = .ok r := by
  obtain ⟨err, herr⟩ := tradesGoE_error_total f (fun _ _ => ([] : List Unit))
    (e - dayFloor start) (dayFloor start) e hraise
  obtain ⟨w, hw1, hw2, hw3⟩ := tradesGoE_error_elim f
    (e - dayFloor start) (dayFloor start) e err herr
  exact ⟨err, herr, tradesGoE_fst_prefix f _ _ _ _, ⟨w, hw1, hw2⟩, hw3⟩

/-- Witness for `claim7_exception_aborts` with an always-raising oracle
on the range `[0, 1]`. -/
theorem claim7_exception_aborts_witness :
    ∃ err, (tradesE (fun _ _ => (Except.error 0 : Except Nat (List Nat))) 0 1).2 =
        .error err ∧
      (tradesE (fun _ _ => (Except.error 0 : Except Nat (List Nat))) 0 1).1 <+:
        tradesWindows 0 1 ∧
      (∃ w, (tradesE (fun _ _ => (Except.error 0 : Except Nat (List Nat))) 0 1).1.getLast? =
          some w ∧ (fun (_ _ : Nat) => (Except.error 0 : Except Nat (List Nat))) w.1 w.2 = .error err) ∧
      ∀ u ∈ (tradesE (fun _ _ => (Except.error 0 : Except Nat (List Nat))) 0 1).1.dropLast,
        ∃ r, (fun (_ _ : Nat) => (Except.error 0 : Except Nat (List Nat))) u.1 u.2 = .ok r :=
  claim7_exception_aborts (fun _ _ => (Except.error 0 : Except Nat (List Nat))) 0 1
    ⟨(0, 1), by decide, 0, rfl⟩

/-- Claim C9, counterexample.  The claim says `fetch_trades` raises a
`ValueError` whenever the start string does not match the format
`YYYY-MM-DD HH:MM:SS`.  False under the literal reading of that format:
`"2018-1-5 0:0:0"` is not of shape `YYYY-MM-DD HH:MM:SS` (its month,
day, hour, minute and second fields are not two digits), yet
`strptime`'s `%m`/`%d`/`%H`/`%M`/`%S` accept one-digit fields, so
`fetch_trades` raises nothing and fetches normally. -/
theorem claim9_counterexample :
    matchesLiteralYmdHMS "2018-1-5 0:0:0" = false ∧
      ∃ v, fetch_trades (fun _ _ => ([] : List Nat))
          ⟨"", "", "", "trading", "2018-1-5 0:0:0", Sum.inr ⟨2018, 1, 6, 0, 0, 0⟩⟩ =
        .ok v :=
  ⟨by decide, ⟨_, rfl⟩⟩

/-- Claim C9, amended: `fetch_trades` raises the start-format
`ValueError` exactly when `strptime` (with format
`'%Y-%m-%d %H:%M:%S'`, which also accepts unpadded one-digit fields and
rejects calendar-invalid dates) fails on the start string; it raises the
end-format `ValueError` exactly when the start string parses, the end
argument is a string, and that string fails to parse; in both cases the
error carries the user-facing message naming the required format and no
fetch is issued (the `trades` call is only reached in the `.ok` case);
and when every supplied string parses, no error is raised. -/
theorem claim9_format_error (f : Nat → Nat → List α) (a : Args) :
    (strptime a.start = none → fetch_trades f a = .error startTimeErrMsg) ∧
      (∀ es, a.endArg = Sum.inl es → strptime a.start ≠ none → strptime es = none →
        fetch_trades f a = .error endTimeErrMsg) ∧
      (∀ ds, strptime a.start = some ds →
        (∀ es, a.endArg = Sum.inl es → strptime es ≠ none) →
        ∃ v, fetch_trades f a = .ok v) := by
  refine ⟨?_, ?_, ?_⟩
  · intro hs
    simp only [fetch_trades, hs]
  · intro es hend hs hes
    obtain ⟨ds, hds⟩ : ∃ ds, strptime a.start = some ds := by
      cases hx : strptime a.start with
      | none => exact absurd hx hs
      | some d => exact ⟨d, rfl⟩
    simp only [fetch_trades, hds, hend, hes]
  · intro ds hds hok
    cases hend : a.endArg with
    | inl es =>
      obtain ⟨de, hde⟩ : ∃ de, strptime es = some de := by
        cases hx : strptime es with
        | none => exact absurd hx (hok es hend)
        | some d => exact ⟨d, rfl⟩
      exact ⟨trades f (toSec ds) (toSec de), by simp only [fetch_trades, hds, hend, hde]⟩
    | inr de => exact ⟨trades f (toSec ds) (toSec de), by simp only [fetch_trades, hds, hend]⟩

/-- Witness for `claim9_format_error`: a month-13 start string fails to
parse and `fetch_trades` raises the start-format error. -/
theorem claim9_format_error_witness :
    strptime "2018-13-01 00:00:00" = none ∧
      fetch_trades (fun _ _ => ([] : List Nat))
          ⟨"", "", "", "trading", "2018-13-01 00:00:00", Sum.inr ⟨2018, 1, 6, 0, 0, 0⟩⟩ =
        .error startTimeErrMsg :=
  ⟨by decide,
    (claim9_format_error (fun _ _ => ([] : List Nat))
      ⟨"", "", "", "trading", "2018-13-01 00:00:00", Sum.inr ⟨2018, 1, 6, 0, 0, 0⟩⟩).1
      (by decide)⟩

/-- Claim C10: `fetch_deposits` and `fetch_withdrawals` never inspect
the start/end fields of the arguments — two runs whose arguments differ
only in `start`/`end` issue identical requests and return identical
results — and each issues exactly one `_get_exchanges` request, with
`page = 1` (and `rows = 0`, empty coin and status, direction 0 resp. 1). -/
theorem claim10_range_ignored (http : ExchangeRequest → Nat × List α)
    (a b : Args) (hc : a.cookies = b.cookies) (ht : a.token = b.token)
    (ho : a.output = b.output) (hm : a.mode = b.mode) :
    fetch_deposits http a = fetch_deposits http b ∧
      fetch_withdrawals http a = fetch_withdrawals http b ∧
      (fetch_deposits http a).1 = [⟨"", Exchange.DEPOSIT, 0, 1, ""⟩] ∧
      (fetch_withdrawals http a).1 = [⟨"", Exchange.WITHDRAWAL, 0, 1, ""⟩] ∧
      (∀ req ∈ (fetch_deposits http a).1, req.page = 1) ∧
      (∀ req ∈ (fetch_withdrawals http a).1, req.page = 1) := by
  refine ⟨rfl, rfl, rfl, rfl, ?_, ?_⟩ <;>
    · intro req hreq
      simp only [fetch_deposits, fetch_withdrawals, deposits, withdrawals,
        _get_exchanges, List.mem_singleton] at hreq
      rw [hreq]

/-- Witness for `claim10_range_ignored`: two argument records differing
only in their start string produce identical deposit runs. -/
theorem claim10_range_ignored_witness :
    fetch_deposits (fun _ => (1, ([] : List Nat)))
        ⟨"c", "t", "o", "deposit", "2018-01-01 00:00:00", Sum.inr ⟨2018, 1, 1, 0, 0, 0⟩⟩ =
      fetch_deposits (fun _ => (1, ([] : List Nat)))
        ⟨"c", "t", "o", "deposit", "2019-06-07 08:09:10", Sum.inr ⟨2018, 1, 1, 0, 0, 0⟩⟩ :=
  (claim10_range_ignored (fun _ => (1, ([] : List Nat)))
    ⟨"c", "t", "o", "deposit", "2018-01-01 00:00:00", Sum.inr ⟨2018, 1, 1, 0, 0, 0⟩⟩
    ⟨"c", "t", "o", "deposit", "2019-06-07 08:09:10", Sum.inr ⟨2018, 1, 1, 0, 0, 0⟩⟩
    rfl rfl rfl rfl).1

end DeltaConv
